import Mathlib

/-!
Verification development for the memory consolidation & retrieval engine of
the `mcp_poc` repository (`react_mcp/services/neo4j_service.py` and
`react_mcp/services/milvus_service.py`).

The Python services are shallowly embedded as pure Lean functions:

* external stores become explicit state values (`MilvusState`, `GraphState`);
* `async` code, whose awaited calls all complete before the next statement
  of the translated flow, is modelled as sequential state passing;
* the OpenAI embedding call, the Redis cache, and the raw Milvus ANN engine
  are collaborators outside the repository, so they are represented by
  oracle function parameters (`svc`, `ann`);
* every `try/except` around a store call is represented by an injected
  failure flag in `FailOracle`/`QueryErrs` choosing the `except` branch;
* floating point scores and embeddings are represented by `ℚ`: the code
  only compares and sorts them, never performs float arithmetic.

Definitions follow the Python source line by line; where a modelling choice
was needed (e.g. database iteration order) it is fixed deterministically and
documented at the definition.
-/

/-- Python `str.lower()` (ASCII case folding, as performed on the
repository's keys/values/relationship verbs), computed character-wise over
the string's character list so that it reduces inside the kernel. -/
def pyLower (s : String) : String :=
  String.mk (s.data.map Char.toLower)

/-- Python `str.strip()` on a character list: drop leading and trailing
whitespace. -/
def trimChars (l : List Char) : List Char :=
  ((l.dropWhile Char.isWhitespace).reverse.dropWhile Char.isWhitespace).reverse

/-- Python `str.strip()`: remove leading and trailing whitespace
(whitespace per `Char.isWhitespace`). -/
def pyStrip (s : String) : String :=
  String.mk (trimChars s.data)

/-- Whether `pat` is a leading segment of `l`. -/
def leadsWith : List Char → List Char → Bool
  | [], _ => true
  | _ :: _, [] => false
  | p :: ps, c :: cs => p = c && leadsWith ps cs

/-- Whether `pat` occurs contiguously inside `l`. -/
def hasSub (l pat : List Char) : Bool :=
  match l with
  | [] => pat.isEmpty
  | _ :: rest => leadsWith pat l || hasSub rest pat

/-- Python `pat in s` substring test (`CONTAINS` in Cypher): the empty
pattern is contained in every string. -/
def pyContains (s pat : String) : Bool :=
  hasSub s.data pat.data

/-- Python truthiness of an optional string field (`dict.get` result):
`None` and `""` are falsy. -/
def truthy : Option String → Bool
  | none => false
  | some s => s ≠ ""

/-- Python `s[0].upper() + s[1:]` used to capitalize a rendered sentence. -/
def pyCapFirst (s : String) : String :=
  match s.data with
  | [] => s
  | c :: cs => String.mk (c.toUpper :: cs)

/-- Python `str.capitalize()`: upper-case the first character, lower-case the
rest. -/
def pyCapitalize (s : String) : String :=
  match s.data with
  | [] => s
  | c :: cs => String.mk (c.toUpper :: cs.map Char.toLower)

/-- First-occurrence deduplication keyed by `key`, threading the set of
already-seen keys (the `unique_texts` / `seen` pattern of the source). -/
def dedupFirstBy {α β : Type} [DecidableEq β] (key : α → β) : List α → List β → List α
  | [], _ => []
  | x :: xs, seen =>
    if (key x) ∈ seen then dedupFirstBy key xs seen
    else x :: dedupFirstBy key xs (seen ++ [key x])

/-- One insertion into a Python-`dict`-like association list: an existing
entry with the same key is overwritten in place (last value wins, first
position kept), a fresh key is appended. -/
def dictInsert {α β : Type} [DecidableEq β] (key : α → β) (m : List α) (x : α) : List α :=
  if m.any (fun y => key y = key x) then
    m.map (fun y => if key y = key x then x else y)
  else m ++ [x]

/-- Python `{key(item): item for item in l}.values()`: last value per key
wins, entries ordered by first occurrence of the key. -/
def dedupLastWins {α β : Type} [DecidableEq β] (key : α → β) (l : List α) : List α :=
  l.foldl (dictInsert key) []

/-- Insert into a list sorted descending by `key`. The inserted element
comes from earlier in the original list than every element of the sorted
tail, so placing it before the first element whose key is `≤` its own makes
repeated insertion a stable descending sort (matching Python's stable
`sort` with `reverse=True`). -/
def insertDescBy {α β : Type} [LinearOrder β] (key : α → β) (x : α) : List α → List α
  | [] => [x]
  | y :: ys => if key y ≤ key x then x :: y :: ys else y :: insertDescBy key x ys

/-- Stable descending sort by `key` (insertion sort; equal keys keep their
original relative order, like Python's `list.sort(reverse=True)` /
`ORDER BY ... DESC`). -/
def sortDescBy {α β : Type} [LinearOrder β] (key : α → β) : List α → List α
  | [] => []
  | x :: xs => insertDescBy key x (sortDescBy key xs)

/-! ## Milvus model (`milvus_service.py`)

The collection `knowledge_vectors` has `original_text` as primary key; a
state is the list of stored records in insertion order. -/

/-- `EMBEDDING_DIMENSION` from `milvus_service.py`. -/
def EMBEDDING_DIMENSION : Nat := 1536

/-- A stored Milvus record (schema of `knowledge_vectors`): primary key
`original_text`, vector payload, and an element-type tag. -/
structure VectorRecord where
  original_text : String
  embedding : List ℚ
  element_type : String
deriving Repr, DecidableEq

/-- The Milvus collection content, in insertion order. -/
abbrev MilvusState := List VectorRecord

/-- An entry of `milvus_insertion_data` in `save_personal_information`
(fields `embedding`, `element_type`, `original_text`). -/
structure InsertItem where
  embedding : List ℚ
  element_type : String
  original_text : String
deriving Repr, DecidableEq

/-- `MilvusService.get_vector_id_by_text` composed with
`_sync_get_vector_id_by_text`: the query text is normalized with
`strip().lower()`, the empty normalized text short-circuits to `None`, and
otherwise the stored record whose `original_text` equals the normalized
text exactly is looked up (the code returns the stored text itself as the
"id"). Internal Milvus errors are caught and also yield `None`; an injected
check-error flag is handled by the callers, not here. -/
def get_vector_id_by_text (M : MilvusState) (text : String) : Option String :=
  let n := pyLower (pyStrip text)
  if n = "" then none
  else (M.find? (fun r => r.original_text = n)).map (fun r => r.original_text)

/-- `MilvusService.insert_vectors` + `_sync_insert_vectors`: each item is
stored with its `original_text` lower-cased (`item["original_text"].lower()`
— note: lower-cased but *not* stripped), and the new records are appended to
the collection. Returns the new state and the inserted records. -/
def insert_vectors (M : MilvusState) (data : List InsertItem) : MilvusState × List VectorRecord :=
  let prepared := data.map (fun it =>
    { original_text := pyLower it.original_text
      embedding := it.embedding
      element_type := it.element_type : VectorRecord })
  (M ++ prepared, prepared)

/-- One raw ANN hit as produced by `collection.search` (fields read by
`_sync_search_vectors`). -/
structure Hit where
  original_text : String
  element_type : String
  score : ℚ
deriving Repr, DecidableEq

/-- The per-group scan of `_sync_search_vectors`: keep a hit iff its score
is at or above the threshold, its text is truthy, and the text was not seen
before; returns the kept hits and the updated seen set. -/
def collectGroup (θ : ℚ) : List Hit → List String → List Hit × List String
  | [], seen => ([], seen)
  | h :: t, seen =>
    if θ ≤ h.score ∧ h.original_text ≠ "" ∧ h.original_text ∉ seen then
      let rest := collectGroup θ t (seen ++ [h.original_text])
      (h :: rest.1, rest.2)
    else collectGroup θ t seen

/-- The full double loop of `_sync_search_vectors` over the hit groups (one
group per query vector), threading the `unique_texts` seen set. -/
def collectHits (θ : ℚ) : List (List Hit) → List String → List Hit
  | [], _ => []
  | grp :: rest, seen =>
    let g := collectGroup θ grp seen
    g.1 ++ collectHits θ rest g.2

/-- Hit processing of `_sync_search_vectors` (lines 104-129): threshold
filter and first-occurrence text dedup over all hit groups, then a stable
sort descending by score, then truncation to `top_k` entries. The raw
engine output `raw` is external and passed in. -/
def processRaw (raw : List (List Hit)) (θ : ℚ) (top_k : Nat) : List Hit :=
  (sortDescBy (fun h => h.score) (collectHits θ raw [])).take top_k

/-! ## Embedding model (`Neo4jService.generate_embedding`)

The OpenAI call and the Redis cache are collaborators; they are abstracted
into a single oracle `svc : String → Option (List ℚ)` giving the vector the
service (or its cache) would return for a prepared text, or `none` when the
call raises. -/

/-- The text preparation `text.replace("\n", " ").strip()`. -/
def textKey (text : String) : String :=
  pyStrip (text.replace "\n" " ")

/-- `Neo4jService.generate_embedding`: empty input returns an all-zero
vector of dimension 1536; a service error is caught and also returns the
all-zero vector; otherwise the service's vector is returned. The function
never raises. -/
def generate_embedding (svc : String → Option (List ℚ)) (text : String) : List ℚ :=
  if text = "" then List.replicate EMBEDDING_DIMENSION 0
  else
    match svc (textKey text) with
    | some e => e
    | none => List.replicate EMBEDDING_DIMENSION 0

/-- Python `not any(vec)`: every element is zero (an empty vector also
counts as failed). Both call sites use this as the failed-embedding test. -/
def isZeroEmb (e : List ℚ) : Bool :=
  e.all (fun x => x = 0)

/-! ## Neo4j graph model (`neo4j_service.py`)

Nodes, `RELATES_TO` edges and `HAS_CATEGORY` edges live in one state with a
shared id counter (Neo4j `elementId` values are globally unique). Where
Neo4j's result order is unspecified (plain `MATCH`, `result.single()` with
several candidate rows — the driver's non-strict `single()` returns the
first record), the model uses the state's list order. -/

/-- An `(:Information)` node: `key`, `value`, legacy `children` list,
creation timestamp. -/
structure InfoNode where
  id : Nat
  key : String
  value : String
  children : List String := []
  createdAt : Nat
  updatedAt : Option Nat := none
deriving Repr, DecidableEq

/-- A `RELATES_TO` edge `(:User)-[r {value: verb}]->(:Information)` with
`lifetime` and timestamps. -/
structure RelEdge where
  id : Nat
  username : String
  nodeId : Nat
  value : String
  lifetime : String
  createdAt : Nat
  updatedAt : Option Nat := none
deriving Repr, DecidableEq

/-- A `HAS_CATEGORY` edge between two `Information` nodes. -/
structure CatEdge where
  id : Nat
  fromId : Nat
  toId : Nat
  createdAt : Nat
  updatedAt : Option Nat := none
deriving Repr, DecidableEq

/-- The graph store state: user names, nodes, both edge kinds, and the next
fresh `elementId`. -/
structure GraphState where
  users : List String
  nodes : List InfoNode
  rels : List RelEdge
  cats : List CatEdge
  nextId : Nat
deriving Repr, DecidableEq

/-- The node-match predicate of the `find_existing_query`
(`WHERE i.value = $value OR i.key = $key`). -/
def nodeMatches (k v : String) (n : InfoNode) : Bool :=
  n.value = v || n.key = k

/-- Lines 321-349 of `save_personal_information`: look up an existing
`Information` node by `i.value = $value OR i.key = $key` (first record). If
one is found and it was a pure category marker (`key == "Category"`) while
the new fact has a real key, overwrite its `key` (and `updatedAt`); if none
is found, `CREATE` a fresh node with the fact's key/value and empty
`children`. Returns the updated graph and the node's id. -/
def resolveNode (g : GraphState) (k v : String) (now : Nat) : GraphState × Nat :=
  match g.nodes.find? (nodeMatches k v) with
  | some n =>
    if n.key = "Category" ∧ k ≠ "Category" then
      ({ g with nodes := g.nodes.map (fun m =>
           if m.id = n.id then { m with key := k, updatedAt := some now } else m) }, n.id)
    else (g, n.id)
  | none =>
    ({ g with nodes := g.nodes ++ [{ id := g.nextId, key := k, value := v,
                                     children := [], createdAt := now }],
              nextId := g.nextId + 1 }, g.nextId)

/-- The edge-match pattern of the `MERGE (u)-[r:RELATES_TO {value: $verb}]->(i)`
statement: user, target node id, and relationship verb together identify an
edge. -/
def relMatches (u : String) (nid : Nat) (verb : String) (e : RelEdge) : Bool :=
  e.username = u && e.nodeId = nid && e.value = verb

/-- Lines 369-379 (`create_rel_query`): `MATCH` the user and the node by id,
then `MERGE` the `RELATES_TO` edge keyed by `(user, node, verb)`.
`ON CREATE` sets `lifetime`/`createdAt`; `ON MATCH` sets `lifetime`/
`updatedAt` on every matching edge. If user or node is absent the `MATCH`
yields no row and the statement returns no id. -/
def mergeRelatesTo (g : GraphState) (u : String) (nid : Nat) (verb lifetime : String)
    (now : Nat) : GraphState × Option Nat :=
  if u ∈ g.users ∧ (g.nodes.any (fun n => n.id = nid)) then
    match g.rels.find? (relMatches u nid verb) with
    | some e =>
      ({ g with rels := g.rels.map (fun r =>
           if relMatches u nid verb r then { r with lifetime := lifetime, updatedAt := some now }
           else r) }, some e.id)
    | none =>
      ({ g with rels := g.rels ++ [{ id := g.nextId, username := u, nodeId := nid,
                                     value := verb, lifetime := lifetime, createdAt := now }],
                nextId := g.nextId + 1 }, some g.nextId)
  else (g, none)

/-- Lines 386-393 (`merge_key_node_query`): `MERGE (k:Information {value:
$key_value})`; `ON CREATE` sets `key := "Category"`, `ON MATCH` *also*
overwrites `key := "Category"` (and `updatedAt`) on every node with that
value. Returns the first matching (or the new) node's id. -/
def mergeKeyNode (g : GraphState) (kval : String) (now : Nat) : GraphState × Nat :=
  match g.nodes.find? (fun n => n.value = kval) with
  | some n =>
    ({ g with nodes := g.nodes.map (fun m =>
         if m.value = kval then { m with key := "Category", updatedAt := some now } else m) },
     n.id)
  | none =>
    ({ g with nodes := g.nodes ++ [{ id := g.nextId, key := "Category", value := kval,
                                     children := [], createdAt := now }],
              nextId := g.nextId + 1 }, g.nextId)

/-- Lines 398-406 (`create_hierarchy_rel_query`): `MERGE (i)-[:HAS_CATEGORY]->(k)`
between two node ids; `ON CREATE`/`ON MATCH` set the timestamps. Both ids
exist whenever the caller reaches this step. -/
def mergeCatEdge (g : GraphState) (fromId toId : Nat) (now : Nat) : GraphState :=
  if g.cats.any (fun h => h.fromId = fromId && h.toId = toId) then
    { g with cats := g.cats.map (fun h =>
        if h.fromId = fromId && h.toId = toId then { h with updatedAt := some now } else h) }
  else
    { g with cats := g.cats ++ [{ id := g.nextId, fromId := fromId, toId := toId,
                                  createdAt := now }],
             nextId := g.nextId + 1 }

/-! ## Consolidation (`Neo4jService.save_personal_information`) -/

/-- One extracted fact (`info` dict): optional fields as delivered by the
LLM extractor; an absent key and a JSON `null` both model as `none`. -/
structure Info where
  key : Option String := none
  value : Option String := none
  relationship : Option String := none
  lifetime : Option String := none
deriving Repr, DecidableEq

/-- The validity filter of lines 248-253:
`all([key_str, value, relationship_verb])` — each of key, value and
relationship must be present and non-empty. -/
def Info.isComplete (i : Info) : Bool :=
  truthy i.key && truthy i.value && truthy i.relationship

/-- The three texts a fact contributes to `texts_to_potentially_process`,
in the order they are added (value, relationship, key). -/
def Info.texts (i : Info) : List String :=
  [i.value.getD "", i.relationship.getD "", i.key.getD ""]

/-- Outcome of the relationship-merge call for one fact: it succeeds, or
the driver returns no record (`neo4j_rel_id is None`, logged and the item
continues), or the call raises (caught at line 408, the whole item is
skipped). -/
inductive RelOutcome where
  | ok
  | retNone
  | exc
deriving Repr, DecidableEq

/-- Injected failure behaviour for the `try/except` blocks of one
consolidation call. `true` (or `.exc`) selects the `except` branch of the
corresponding block. -/
structure FailOracle where
  /-- The user-existence query at lines 225-232 raises. -/
  userCheckErr : Bool := false
  /-- The per-text Milvus existence check of pass 1 (lines 268-277) raises
  for this text; the code then marks the text as needing embedding. -/
  milvusCheckErr : String → Bool := fun _ => false
  /-- The find/create/update block for the `Information` node
  (lines 323-349) raises for this fact; the item is skipped. -/
  findNodeErr : Info → Bool := fun _ => false
  /-- Outcome of the relationship merge (lines 370-380) for this fact. -/
  relOutcome : Info → RelOutcome := fun _ => RelOutcome.ok
  /-- The category-node merge (lines 384-396) raises or returns no id for
  this fact; the rest of the item is skipped. -/
  keyNodeErr : Info → Bool := fun _ => false
  /-- The `HAS_CATEGORY` merge (lines 398-406) raises for this fact; the
  Milvus preparation for the item is skipped. -/
  hierErr : Info → Bool := fun _ => false
  /-- The pass-2 re-check (lines 447-453) raises for this text; the code
  logs and keeps the item. -/
  pass2CheckErr : String → Bool := fun _ => false
  /-- The batched Milvus insert (lines 457-465) raises; nothing is
  inserted. -/
  insertErr : Bool := false

/-- Mutable state threaded through the per-fact loop of
`save_personal_information`: the graph, the accumulated
`milvus_insertion_data`, and the remaining `embeddings_needed` texts. -/
structure LoopState where
  graph : GraphState
  inserts : List InsertItem
  needed : List String
deriving Repr

/-- One queueing step of lines 413-435: if the text is still in
`embeddings_needed`, its generated embedding did not fail (i.e. it is in
`embedding_cache`), and the extra side condition holds (the edge-created
check for relationship texts), append an insertion item with the
lower-cased text and remove the text from `embeddings_needed`. -/
def queueIf (svc : String → Option (List ℚ)) (t ty : String) (extra : Bool)
    (s : List InsertItem × List String) : List InsertItem × List String :=
  if t ∈ s.2 ∧ !(isZeroEmb (generate_embedding svc t)) ∧ extra then
    (s.1 ++ [{ embedding := generate_embedding svc t, element_type := ty,
               original_text := pyLower t }],
     s.2.erase t)
  else s

/-- Lines 313-435: process one valid fact. Create/find the `Information`
node, merge the `RELATES_TO` edge, merge the category node and the
`HAS_CATEGORY` edge (each failure skips the rest of the item), then queue
the value / relationship / key texts that still need embedding for the
Milvus batch insert (relationship only if its edge was created), removing
each queued text from `embeddings_needed`. -/
def processInfo (svc : String → Option (List ℚ)) (fo : FailOracle) (username : String)
    (now : Nat) (st : LoopState) (info : Info) : LoopState :=
  let k := info.key.getD ""
  let v := info.value.getD ""
  let r := info.relationship.getD ""
  let lt := info.lifetime.getD "permanent"
  if fo.findNodeErr info then st
  else
    let g1n := resolveNode st.graph k v now
    if fo.relOutcome info = RelOutcome.exc then { st with graph := g1n.1 }
    else
      let g2r : GraphState × Option Nat :=
        if fo.relOutcome info = RelOutcome.ok then
          mergeRelatesTo g1n.1 username g1n.2 r lt now
        else (g1n.1, none)
      if fo.keyNodeErr info then { st with graph := g2r.1 }
      else
        let g3k := mergeKeyNode g2r.1 k now
        if fo.hierErr info then { st with graph := g3k.1 }
        else
          let g4 := mergeCatEdge g3k.1 g1n.2 g3k.2 now
          let s3 :=
            queueIf svc k "Node" true
              (queueIf svc r "Relationship" (g2r.2 ≠ none)
                (queueIf svc v "Node" true (st.inserts, st.needed)))
          { graph := g4, inserts := s3.1, needed := s3.2 }

/-- Pass 2 (lines 437-469): deduplicate the queued items by lower-cased
text (`dict` comprehension: last value wins, first position kept), set each
item's text to its lower-cased form, drop every item whose text the re-check
finds already stored (a raised check keeps the item), and batch-insert the
rest; an insert error inserts nothing. Returns the new Milvus state and the
inserted records. -/
def pass2 (M : MilvusState) (fo : FailOracle) (inserts : List InsertItem) :
    MilvusState × List VectorRecord :=
  if inserts.isEmpty then (M, [])
  else
    let deduped := dedupLastWins (fun it => pyLower it.original_text) inserts
    let lowered := deduped.map (fun it => { it with original_text := pyLower it.original_text })
    let filtered := lowered.filter (fun it =>
      fo.pass2CheckErr it.original_text || (get_vector_id_by_text M it.original_text).isNone)
    if filtered.isEmpty then (M, [])
    else if fo.insertErr then (M, [])
    else insert_vectors M filtered

/-- Result of a consolidation call: final graph and Milvus states, the
records actually inserted into Milvus, and the boolean the coroutine
returns. -/
structure SaveResult where
  graph : GraphState
  milvus : MilvusState
  insertedRecords : List VectorRecord
  ok : Bool
deriving Repr

/-- `Neo4jService.save_personal_information` (lines 216-472). A failing or
negative user-existence check returns `False` at once. Otherwise: filter
incomplete facts (lines 247-257); collect the distinct candidate texts;
under the lock, mark as needing embedding every text whose Milvus check
raises or finds nothing (lines 259-285); generate embeddings outside the
lock, dropping texts whose embedding comes back all-zero or raises
(lines 287-310); run the per-fact loop; run the pass-2 batch insert; return
`True`. The Python set iteration order is unspecified; the model fixes
first-insertion order, on which no downstream result depends (membership
only). -/
def save_personal_information (g : GraphState) (M : MilvusState)
    (svc : String → Option (List ℚ)) (fo : FailOracle)
    (username : String) (info_list : List Info) (now : Nat) : SaveResult :=
  if fo.userCheckErr then { graph := g, milvus := M, insertedRecords := [], ok := false }
  else if username ∈ g.users then
    let valid := info_list.filter Info.isComplete
    let texts := dedupFirstBy id (valid.flatMap Info.texts) []
    let needed0 := texts.filter (fun t =>
      fo.milvusCheckErr t || (get_vector_id_by_text M t).isNone)
    let needed1 := needed0.filter (fun t => !(isZeroEmb (generate_embedding svc t)))
    let final := valid.foldl (processInfo svc fo username now)
      { graph := g, inserts := [], needed := needed1 }
    let p := pass2 M fo final.inserts
    { graph := final.graph, milvus := p.1, insertedRecords := p.2, ok := true }
  else { graph := g, milvus := M, insertedRecords := [], ok := false }

/-! ## Retrieval (`Neo4jService.find_similar_information`) -/

/-- One record returned by the three Cypher read queries (the union of the
columns they `RETURN`; columns a query does not produce are `""`/`[]`, which
is how the Python `dict.get` defaults behave downstream). -/
structure QRec where
  rel_id : Nat
  relationship : String
  node_key : String
  node_value : String
  created_at : Nat
  lifetime : String
  children : List String := []
  parent_relationship : String := ""
  parent_value : String := ""
deriving Repr, DecidableEq

/-- Find an `Information` node by its element id. -/
def lookupNode (g : GraphState) (nid : Nat) : Option InfoNode :=
  g.nodes.find? (fun n => n.id = nid)

/-- The unsorted rows of `query1` (lines 516-547): the `UNION ALL` of the
direct-match branch (user's `RELATES_TO` edges whose verb or node value is
in the relevant texts) and the category branch (one `HAS_CATEGORY` hop from
such a directly-matched node, carrying the parent verb and value). Row
order before sorting follows the state's list order. -/
def q1rows (g : GraphState) (u : String) (texts : List String) : List QRec :=
  (g.rels.filterMap (fun r =>
    if r.username = u then
      match lookupNode g r.nodeId with
      | some i =>
        if texts.contains r.value || texts.contains i.value then
          some { rel_id := r.id, relationship := r.value, node_key := i.key,
                 node_value := i.value, created_at := i.createdAt, lifetime := r.lifetime,
                 children := i.children }
        else none
      | none => none
    else none))
  ++
  (g.rels.flatMap (fun r =>
    if r.username = u then
      match lookupNode g r.nodeId with
      | some i =>
        if texts.contains r.value || texts.contains i.value then
          g.cats.filterMap (fun h =>
            if h.fromId = i.id then
              match lookupNode g h.toId with
              | some j =>
                some { rel_id := h.id, relationship := "HAS_CATEGORY",
                       node_key := j.key, node_value := j.value,
                       created_at := j.createdAt, lifetime := "",
                       children := j.children,
                       parent_relationship := r.value, parent_value := i.value }
              | none => none
            else none)
        else []
      | none => []
    else []))

/-- `query1` with its `ORDER BY created_at DESC LIMIT $limit`, read as
applying to the whole union (the query as written; the limit passed is
`top_k * 5`). -/
def query1 (g : GraphState) (u : String) (texts : List String) (lim : Nat) : List QRec :=
  (sortDescBy (fun rec => rec.created_at) (q1rows g u texts)).take lim

/-- The unsorted rows of `query2` (lines 573-584): every `HAS_CATEGORY` hop
from *any* node the user `RELATES_TO` — note: no filter against the
relevant texts. One row per `(RELATES_TO edge, HAS_CATEGORY edge)` pattern
match, keyed by the category edge's id. -/
def q2rows (g : GraphState) (u : String) : List QRec :=
  g.rels.flatMap (fun r =>
    if r.username = u then
      match lookupNode g r.nodeId with
      | some _parent =>
        g.cats.filterMap (fun h =>
          if h.fromId = r.nodeId then
            match lookupNode g h.toId with
            | some child =>
              some { rel_id := h.id, relationship := "HAS_CATEGORY",
                     node_key := child.key, node_value := child.value,
                     created_at := child.createdAt, lifetime := "" }
            | none => none
          else none)
      | none => []
    else [])

/-- `query2` with `ORDER BY child.createdAt DESC LIMIT $limit` (limit
`top_k * 3`). -/
def query2 (g : GraphState) (u : String) (lim : Nat) : List QRec :=
  (sortDescBy (fun rec => rec.created_at) (q2rows g u)).take lim

/-- The unsorted rows of `query3` (lines 600-613): the user's `RELATES_TO`
edges whose verb contains (case-sensitively or case-insensitively) any of
the relevant texts or raw keywords. -/
def q3rows (g : GraphState) (u : String) (texts : List String) : List QRec :=
  g.rels.filterMap (fun r =>
    if r.username = u &&
       (texts.any (fun t => pyContains r.value t) ||
        texts.any (fun t => pyContains (pyLower r.value) (pyLower t))) then
      match lookupNode g r.nodeId with
      | some i =>
        some { rel_id := r.id, relationship := r.value, node_key := i.key,
               node_value := i.value, created_at := i.createdAt, lifetime := r.lifetime }
      | none => none
    else none)

/-- `query3` with `ORDER BY i.createdAt DESC LIMIT $limit` (limit
`top_k * 3`). -/
def query3 (g : GraphState) (u : String) (texts : List String) (lim : Nat) : List QRec :=
  (sortDescBy (fun rec => rec.created_at) (q3rows g u texts)).take lim

/-- Injected failure flags for the three wrapped Neo4j read queries: a
raised query contributes no records and retrieval continues. -/
structure QueryErrs where
  q1Err : Bool := false
  q2Err : Bool := false
  q3Err : Bool := false

/-- Lines 509-650: run the three queries (query 1 only when relevant texts
exist, each query dropped when it raises) and merge them into
`final_results_map`, keyed by `rel_id`, first occurrence winning, in
query-priority order 1 > 2 > 3. -/
def mergedRecords (g : GraphState) (qe : QueryErrs) (u : String)
    (relevant keywords : List String) (top_k : Nat) : List QRec :=
  let l1 := if qe.q1Err || relevant.isEmpty then [] else query1 g u relevant (top_k * 5)
  let l2 := if qe.q2Err then [] else query2 g u (top_k * 3)
  let l3 := if qe.q3Err then [] else query3 g u (relevant ++ keywords) (top_k * 3)
  dedupFirstBy (fun rec => rec.rel_id) (l1 ++ l2 ++ l3) []

/-- A record of the category branch of query 1: it carries a truthy parent
relationship and parent value, triggering the two-sentence rendering path. -/
def isParentRec (rec : QRec) : Bool :=
  rec.parent_relationship ≠ "" && rec.parent_value ≠ ""

/-- Sentence 1 of the two-sentence path (lines 672-676): the parent edge
rendered `"You {parent_rel} {parent_val}, recorded around {iso},
lifetime {lifetime}."`, first character capitalized. `iso` abstracts
`datetime.fromtimestamp(ms/1000).isoformat()` (library date formatting,
external to the engine's logic). -/
def parentSent1 (iso : Nat → String) (rec : QRec) : String :=
  pyCapFirst ("You " ++ pyLower rec.parent_relationship ++ " " ++
    pyLower rec.parent_value ++ ", recorded around " ++ iso rec.created_at ++
    ", lifetime " ++ rec.lifetime ++ ".")

/-- Sentence 2 of the two-sentence path (lines 680-683):
`"{parent_value.capitalize()} is a {node_key} of {node_value}."`. -/
def catSent (rec : QRec) : String :=
  pyCapitalize (pyLower rec.parent_value) ++ " is a " ++ pyLower rec.node_key ++
    " of " ++ pyLower rec.node_value ++ "."

/-- The one-sentence default path (lines 705-709): `"You {relationship}
{node_value}, recorded around {iso}, lifetime {lifetime}."`, first
character capitalized. -/
def defaultSent (iso : Nat → String) (rec : QRec) : String :=
  pyCapFirst ("You " ++ pyLower rec.relationship ++ " " ++
    pyLower rec.node_value ++ ", recorded around " ++ iso rec.created_at ++
    ", lifetime " ++ rec.lifetime ++ ".")

/-- The dedup tuple `(rel_verb, node_val, node_key)` of the default path. -/
def recTuple (rec : QRec) : String × String × String :=
  (pyLower rec.relationship, pyLower rec.node_value, pyLower rec.node_key)

/-- The sentence loop of lines 652-710, threading the output list and the
`seen_tuples` set: break once `top_k` sentences are accumulated (also
between the two sentences of a category record); a parent record emits its
parent sentence then its category sentence; a default record is skipped
when verb or value is empty or its tuple was already seen, and otherwise
emits one sentence. -/
def renderLoop (iso : Nat → String) (top_k : Nat) :
    List QRec → List String → List (String × String × String) → List String
  | [], out, _ => out
  | rec :: rest, out, seen =>
    if out.length ≥ top_k then out
    else if isParentRec rec then
      let out1 := out ++ [parentSent1 iso rec]
      if out1.length ≥ top_k then out1
      else
        let out2 := out1 ++ [catSent rec]
        if out2.length ≥ top_k then out2
        else renderLoop iso top_k rest out2 seen
    else
      if pyLower rec.relationship = "" ∨ pyLower rec.node_value = "" ∨ recTuple rec ∈ seen then
        renderLoop iso top_k rest out seen
      else renderLoop iso top_k rest (out ++ [defaultSent iso rec]) (seen ++ [recTuple rec])

/-- The sentence rendering of `find_similar_information`. -/
def render (iso : Nat → String) (top_k : Nat) (recs : List QRec) : List String :=
  renderLoop iso top_k recs [] []

/-- The unbounded sentence stream: the same per-record contributions as
`renderLoop` — a parent record contributes its adjacent pair of sentences,
a default record contributes one sentence or nothing — without the `top_k`
cutoff. `render` is proved to be its `top_k`-prefix. -/
def renderAll (iso : Nat → String) :
    List QRec → List (String × String × String) → List String
  | [], _ => []
  | rec :: rest, seen =>
    if isParentRec rec then
      parentSent1 iso rec :: catSent rec :: renderAll iso rest seen
    else
      if pyLower rec.relationship = "" ∨ pyLower rec.node_value = "" ∨ recTuple rec ∈ seen then
        renderAll iso rest seen
      else defaultSent iso rec :: renderAll iso rest (seen ++ [recTuple rec])

/-- The keyword-embedding filter of lines 486-488: embed every keyword and
keep the embeddings that are not all-zero. -/
def validEmbeddings (svc : String → Option (List ℚ)) (keywords : List String) : List (List ℚ) :=
  (keywords.map (generate_embedding svc)).filter (fun e => !(isZeroEmb e))

/-- `Neo4jService.find_similar_information` (lines 474-713): empty keyword
list returns `[]`; embed the keywords and return `[]` when no embedding is
usable; search Milvus with `top_k * 3` and return `[]` when no hit
survives; collect the distinct relevant texts; run and merge the three
graph queries; render at most `top_k` sentences. `ann` is the raw ANN
engine output for the query vectors (one hit group per vector);
`iso` is the ISO-8601 timestamp formatter. -/
def find_similar_information (g : GraphState) (svc : String → Option (List ℚ))
    (ann : List (List ℚ) → List (List Hit)) (qe : QueryErrs) (iso : Nat → String)
    (username : String) (keywords : List String) (top_k : Nat) (θ : ℚ) : List String :=
  if keywords = [] then []
  else
    let valid := validEmbeddings svc keywords
    if valid = [] then []
    else
      let hits := processRaw (ann valid) θ (top_k * 3)
      if hits = [] then []
      else
        let relevant := dedupFirstBy id (hits.filterMap (fun h =>
          if h.original_text ≠ "" then some h.original_text else none)) []
        render iso top_k (mergedRecords g qe username relevant keywords top_k)

/-! ## Shared concrete fixtures for witnesses and counterexamples -/

/-- An embedding oracle that always succeeds with a non-zero vector. -/
def exSvc : String → Option (List ℚ) := fun _ => some [1]

/-- The no-failure oracle. -/
def exFail : FailOracle := {}

/-- The no-failure query flags. -/
def exQE : QueryErrs := {}

/-- A numeric stand-in for the ISO timestamp formatter. -/
def exIso : Nat → String := fun n => toString n

/-- A graph holding only the user `"alice"`. -/
def exGraph : GraphState :=
  { users := ["alice"], nodes := [], rels := [], cats := [], nextId := 0 }

/-- A complete fact: alice likes pizza (a dish). -/
def exFact : Info :=
  { key := some "dish", value := some "pizza", relationship := some "like",
    lifetime := some "permanent" }

/-- An incomplete fact: no relationship verb. -/
def exBadFact : Info :=
  { key := some "dish", value := some "pasta", relationship := none, lifetime := none }

/-! ## C5: consolidation fails exactly on the user-existence check -/

/-- C5: a consolidation call reports failure if and only if the
user-existence check fails (the check raises or finds no user); with the
user present, every combination of per-fact and per-text failures
(embedding, graph, vector, batch insert) still ends in `True`. -/
theorem C5_fail_iff_user_check (g : GraphState) (M : MilvusState)
    (svc : String → Option (List ℚ)) (fo : FailOracle) (username : String)
    (info_list : List Info) (now : Nat) :
    (save_personal_information g M svc fo username info_list now).ok = false ↔
      (fo.userCheckErr = true ∨ username ∉ g.users) := by
  by_cases hc : fo.userCheckErr
  · simp [save_personal_information, hc]
  · by_cases hu : username ∈ g.users
    · simp [save_personal_information, hc, hu]
    · simp [save_personal_information, hc, hu]

/-! ## C3: incomplete facts are dropped, the rest of the batch is unaffected -/

/-- C3: a fact missing one of key/value/relationship is skipped and has no
effect whatsoever on the call — the result (graph, vector store, inserted
records, return flag) equals that of the batch without it, so every other
valid fact is processed exactly as before and one malformed fact never
fails the batch. -/
theorem C3_incomplete_fact_dropped (g : GraphState) (M : MilvusState)
    (svc : String → Option (List ℚ)) (fo : FailOracle) (username : String)
    (l₁ l₂ : List Info) (bad : Info) (now : Nat)
    (hbad : bad.isComplete = false) :
    save_personal_information g M svc fo username (l₁ ++ bad :: l₂) now =
      save_personal_information g M svc fo username (l₁ ++ l₂) now := by
  have h : (l₁ ++ bad :: l₂).filter Info.isComplete =
      (l₁ ++ l₂).filter Info.isComplete := by
    simp [List.filter_append, List.filter_cons, hbad]
  simp only [save_personal_information, h]

/-- Witness for C3 at a concrete batch: the incomplete fact `exBadFact` is
dropped from a two-fact batch. -/
theorem C3_witness :
    Info.isComplete exBadFact = false ∧
      save_personal_information exGraph [] exSvc exFail "alice" ([exFact] ++ exBadFact :: []) 0 =
        save_personal_information exGraph [] exSvc exFail "alice" ([exFact] ++ []) 0 :=
  ⟨by decide,
   C3_incomplete_fact_dropped exGraph [] exSvc exFail "alice" [exFact] [] exBadFact 0 (by decide)⟩

/-! ## Supporting lemmas about the list utilities -/

theorem mem_dictInsert {α β : Type} [DecidableEq β] (key : α → β) (m : List α) (x z : α)
    (hz : z ∈ dictInsert key m x) : z ∈ m ∨ z = x := by
  unfold dictInsert at hz
  split at hz
  · rcases List.mem_map.mp hz with ⟨y, hy, hmap⟩
    by_cases h : key y = key x
    · right
      simpa [h] using hmap.symm
    · left
      simp only [h, if_false] at hmap
      exact hmap ▸ hy
  · rcases List.mem_append.mp hz with h | h
    · exact Or.inl h
    · right
      simpa using h

theorem foldl_dictInsert_mem {α β : Type} [DecidableEq β] (key : α → β) (l : List α) :
    ∀ (acc : List α) (z : α), z ∈ l.foldl (dictInsert key) acc → z ∈ acc ∨ z ∈ l := by
  induction l with
  | nil => exact fun acc z hz => Or.inl hz
  | cons x xs ih =>
    intro acc z hz
    rcases ih (dictInsert key acc x) z hz with h | h
    · rcases mem_dictInsert key acc x z h with h' | h'
      · exact Or.inl h'
      · exact Or.inr (by simp [h'])
    · exact Or.inr (List.mem_cons_of_mem _ h)

theorem mem_dedupLastWins {α β : Type} [DecidableEq β] (key : α → β) (l : List α) (z : α)
    (hz : z ∈ dedupLastWins key l) : z ∈ l := by
  rcases foldl_dictInsert_mem key l [] z hz with h | h
  · cases h
  · exact h

theorem dictInsert_map_key_of_any {α β : Type} [DecidableEq β] (key : α → β)
    (m : List α) (x : α) (h : m.any (fun y => key y = key x) = true) :
    (dictInsert key m x).map key = m.map key := by
  unfold dictInsert
  rw [if_pos h, List.map_map]
  refine List.map_congr_left (fun y _ => ?_)
  by_cases h' : key y = key x
  · simp [h', Function.comp]
  · simp [h', Function.comp]

theorem dictInsert_keys_nodup {α β : Type} [DecidableEq β] (key : α → β)
    (m : List α) (x : α) (hm : (m.map key).Nodup) :
    ((dictInsert key m x).map key).Nodup := by
  by_cases h : m.any (fun y => key y = key x)
  · rw [dictInsert_map_key_of_any key m x h]
    exact hm
  · unfold dictInsert
    rw [if_neg h, List.map_append]
    simp only [List.any_eq_true, decide_eq_true_eq, not_exists, not_and] at h
    simp only [List.map_cons, List.map_nil, List.nodup_append, hm, true_and]
    refine ⟨List.nodup_singleton _, ?_⟩
    intro b hb hb'
    rcases List.mem_map.mp hb with ⟨y, hy, hk⟩
    simp only [List.mem_singleton] at hb'
    exact h y hy (hb' ▸ hk)

theorem dedupLastWins_keys_nodup {α β : Type} [DecidableEq β] (key : α → β) (l : List α) :
    ((dedupLastWins key l).map key).Nodup := by
  suffices h : ∀ acc : List α, (acc.map key).Nodup →
      ((l.foldl (dictInsert key) acc).map key).Nodup from h [] (by simp)
  induction l with
  | nil => exact fun acc hacc => hacc
  | cons x xs ih => exact fun acc hacc => ih _ (dictInsert_keys_nodup key acc x hacc)

theorem mem_dedupFirstBy {α β : Type} [DecidableEq β] (key : α → β) :
    ∀ (l : List α) (seen : List β) (z : α), z ∈ dedupFirstBy key l seen → z ∈ l := by
  intro l
  induction l with
  | nil => intro seen z hz; cases hz
  | cons x xs ih =>
    intro seen z hz
    unfold dedupFirstBy at hz
    split at hz
    · exact List.mem_cons_of_mem _ (ih _ z hz)
    · rcases List.mem_cons.mp hz with rfl | h
      · exact List.mem_cons_self _ _
      · exact List.mem_cons_of_mem _ (ih _ z h)

theorem mem_queueIf_inserts {svc : String → Option (List ℚ)} {t ty : String} {ex : Bool}
    {s : List InsertItem × List String} {it : InsertItem}
    (h : it ∈ (queueIf svc t ty ex s).1) :
    it ∈ s.1 ∨ (t ∈ s.2 ∧ isZeroEmb (generate_embedding svc t) = false ∧
      it = { embedding := generate_embedding svc t, element_type := ty,
             original_text := pyLower t }) := by
  unfold queueIf at h
  split at h
  · next hc =>
    rcases List.mem_append.mp h with h' | h'
    · exact Or.inl h'
    · exact Or.inr ⟨hc.1, by simpa using hc.2.1, by simpa using h'⟩
  · exact Or.inl h

theorem mem_queueIf_needed {svc : String → Option (List ℚ)} {t ty : String} {ex : Bool}
    {s : List InsertItem × List String} {x : String}
    (h : x ∈ (queueIf svc t ty ex s).2) : x ∈ s.2 := by
  unfold queueIf at h
  split at h
  · exact List.mem_of_mem_erase h
  · exact h

/-- An item queued for Milvus insertion originates from a text of
`embeddings_needed` whose generated embedding is not all-zero; its payload
is that embedding and its stored text is the lower-cased source text. -/
def GoodItem (svc : String → Option (List ℚ)) (needed : List String) (it : InsertItem) : Prop :=
  ∃ t, t ∈ needed ∧ isZeroEmb (generate_embedding svc t) = false ∧
    it.embedding = generate_embedding svc t ∧ it.original_text = pyLower t

theorem processInfo_inserts_mem {svc : String → Option (List ℚ)} {fo : FailOracle}
    {u : String} {now : Nat} {st : LoopState} {info : Info} {it : InsertItem}
    (h : it ∈ (processInfo svc fo u now st info).inserts) :
    it ∈ st.inserts ∨ GoodItem svc st.needed it := by
  simp only [processInfo] at h
  split at h
  · exact Or.inl h
  · split at h
    · simp only at h
      exact Or.inl h
    · split at h
      · simp only at h
        exact Or.inl h
      · split at h
        · simp only at h
          exact Or.inl h
        · simp only at h
          rcases mem_queueIf_inserts h with h1 | ⟨hm, hz, rfl⟩
          · rcases mem_queueIf_inserts h1 with h2 | ⟨hm, hz, rfl⟩
            · rcases mem_queueIf_inserts h2 with h3 | ⟨hm, hz, rfl⟩
              · exact Or.inl h3
              · exact Or.inr ⟨_, hm, hz, rfl, rfl⟩
            · exact Or.inr ⟨_, mem_queueIf_needed hm, hz, rfl, rfl⟩
          · exact Or.inr ⟨_, mem_queueIf_needed (mem_queueIf_needed hm), hz, rfl, rfl⟩

theorem processInfo_needed_mem {svc : String → Option (List ℚ)} {fo : FailOracle}
    {u : String} {now : Nat} {st : LoopState} {info : Info} {x : String}
    (h : x ∈ (processInfo svc fo u now st info).needed) : x ∈ st.needed := by
  simp only [processInfo] at h
  split at h
  · exact h
  · split at h
    · simp only at h
      exact h
    · split at h
      · simp only at h
        exact h
      · split at h
        · simp only at h
          exact h
        · simp only at h
          exact mem_queueIf_needed (mem_queueIf_needed (mem_queueIf_needed h))

theorem foldl_processInfo_inserts {svc : String → Option (List ℚ)} {fo : FailOracle}
    {u : String} {now : Nat} :
    ∀ (l : List Info) (st : LoopState) (it : InsertItem),
      it ∈ (l.foldl (processInfo svc fo u now) st).inserts →
      it ∈ st.inserts ∨ GoodItem svc st.needed it := by
  intro l
  induction l with
  | nil => exact fun st it h => Or.inl h
  | cons x xs ih =>
    intro st it h
    rcases ih (processInfo svc fo u now st x) it h with h' | h'
    · exact processInfo_inserts_mem h'
    · rcases h' with ⟨t, ht, hz, he, ho⟩
      exact Or.inr ⟨t, processInfo_needed_mem ht, hz, he, ho⟩

theorem pass2_records_emb {M : MilvusState} {fo : FailOracle} {inserts : List InsertItem}
    {rec : VectorRecord} (h : rec ∈ (pass2 M fo inserts).2) :
    ∃ it ∈ inserts, rec.embedding = it.embedding := by
  unfold pass2 at h
  split at h
  · cases h
  · simp only at h
    split at h
    · cases h
    · split at h
      · cases h
      · unfold insert_vectors at h
        simp only at h
        rcases List.mem_map.mp h with ⟨it, hit, rfl⟩
        rcases List.mem_filter.mp hit with ⟨hit', _⟩
        rcases List.mem_map.mp hit' with ⟨it0, hit0, rfl⟩
        exact ⟨it0, mem_dedupLastWins _ _ _ hit0, rfl⟩

/-! ## C10: the all-zero vector is the embedding failure sentinel -/

/-- C10: `generate_embedding` is total with the all-zero 1536-vector as
failure sentinel — empty input and a raising embedding service both return
the zero vector instead of raising — and both consumers drop all-zero
embeddings: every keyword embedding retrieval actually searches with is
non-zero, and every record consolidation inserts into the vector store
carries a non-zero embedding. -/
theorem C10_zero_embedding_sentinel (svc : String → Option (List ℚ)) (t : String)
    (g : GraphState) (M : MilvusState) (fo : FailOracle) (username : String)
    (info_list : List Info) (now : Nat) (keywords : List String) :
    (t = "" → generate_embedding svc t = List.replicate EMBEDDING_DIMENSION 0) ∧
    (svc (textKey t) = none →
      generate_embedding svc t = List.replicate EMBEDDING_DIMENSION 0) ∧
    (∀ e ∈ validEmbeddings svc keywords, isZeroEmb e = false) ∧
    (∀ rec ∈ (save_personal_information g M svc fo username info_list now).insertedRecords,
      isZeroEmb rec.embedding = false) := by
  refine ⟨?_, ?_, ?_, ?_⟩
  · intro ht
    simp [generate_embedding, ht]
  · intro hs
    by_cases ht : t = ""
    · simp [generate_embedding, ht]
    · simp [generate_embedding, ht, hs]
  · intro e he
    have := (List.mem_filter.mp he).2
    simpa using this
  · intro rec hrec
    simp only [save_personal_information] at hrec
    split at hrec
    · cases hrec
    · split at hrec
      · simp only at hrec
        rcases pass2_records_emb hrec with ⟨it, hit, hemb⟩
        rcases foldl_processInfo_inserts _ _ it hit with h | h
        · cases h
        · rcases h with ⟨tx, _, hz, he, _⟩
          rw [hemb, he, hz]
      · cases hrec

/-- Witness for C10: a service that always raises yields the zero vector
for a non-empty text, the sentinel cases are exercised, and the closed
consolidation/retrieval instances contain no all-zero embedding. -/
theorem C10_witness :
    generate_embedding (fun _ => none) "pizza" = List.replicate EMBEDDING_DIMENSION 0 ∧
    generate_embedding exSvc "" = List.replicate EMBEDDING_DIMENSION 0 ∧
    (∀ e ∈ validEmbeddings exSvc ["food"], isZeroEmb e = false) ∧
    (∀ rec ∈ (save_personal_information exGraph [] exSvc exFail "alice" [exFact] 0).insertedRecords,
      isZeroEmb rec.embedding = false) := by
  refine ⟨?_, ?_, ?_, ?_⟩
  · exact (C10_zero_embedding_sentinel (fun _ => none) "pizza" exGraph [] exFail "alice" [] 0
      []).2.1 rfl
  · exact (C10_zero_embedding_sentinel exSvc "" exGraph [] exFail "alice" [] 0 []).1 rfl
  · exact (C10_zero_embedding_sentinel exSvc "" exGraph [] exFail "alice" [] 0 ["food"]).2.2.1
  · exact (C10_zero_embedding_sentinel exSvc "" exGraph [] exFail "alice" [exFact] 0 []).2.2.2

/-! ## C4: the three empty-result gates of retrieval -/

/-- An ANN oracle returning no hits. -/
def exAnnEmpty : List (List ℚ) → List (List Hit) := fun _ => []

/-- C4: retrieval returns `[]` when the keyword list is empty, when no
keyword produced a usable (non-zero) embedding, and when the processed
vector search yields no hit — in the last case no graph query contributes
anything (vector relevance gates the graph stage). -/
theorem C4_empty_result_gates (g : GraphState) (svc : String → Option (List ℚ))
    (ann : List (List ℚ) → List (List Hit)) (qe : QueryErrs) (iso : Nat → String)
    (username : String) (top_k : Nat) (θ : ℚ) :
    (find_similar_information g svc ann qe iso username [] top_k θ = []) ∧
    (∀ keywords, validEmbeddings svc keywords = [] →
      find_similar_information g svc ann qe iso username keywords top_k θ = []) ∧
    (∀ keywords, processRaw (ann (validEmbeddings svc keywords)) θ (top_k * 3) = [] →
      find_similar_information g svc ann qe iso username keywords top_k θ = []) := by
  refine ⟨by simp [find_similar_information], ?_, ?_⟩
  · intro kws h
    by_cases hk : kws = []
    · simp [find_similar_information, hk]
    · simp [find_similar_information, hk, h]
  · intro kws h
    by_cases hk : kws = []
    · simp [find_similar_information, hk]
    · by_cases hv : validEmbeddings svc kws = []
      · simp [find_similar_information, hk, hv]
      · simp [find_similar_information, hk, hv, h]

/-- Witness for C4: the three gates at concrete inputs — empty keywords, an
always-raising embedding service, and an ANN engine with no hits. -/
theorem C4_witness :
    (find_similar_information exGraph exSvc exAnnEmpty exQE exIso "alice" [] 3 0 = []) ∧
    (validEmbeddings (fun _ => none) ["food"] = [] ∧
     find_similar_information exGraph (fun _ => none) exAnnEmpty exQE exIso "alice" ["food"] 3 0 = []) ∧
    (processRaw (exAnnEmpty (validEmbeddings exSvc ["food"])) 0 (3 * 3) = [] ∧
     find_similar_information exGraph exSvc exAnnEmpty exQE exIso "alice" ["food"] 3 0 = []) := by
  have hz : isZeroEmb (List.replicate EMBEDDING_DIMENSION (0 : ℚ)) = true := by
    simp [isZeroEmb, List.all_eq_true, List.mem_replicate]
  have hv : validEmbeddings (fun _ => none) ["food"] = [] := by
    simp [validEmbeddings, generate_embedding, hz]
  refine ⟨(C4_empty_result_gates exGraph exSvc exAnnEmpty exQE exIso "alice" 3 0).1,
          ⟨hv, (C4_empty_result_gates exGraph (fun _ => none) exAnnEmpty exQE exIso
            "alice" 3 0).2.1 ["food"] hv⟩, ⟨rfl, ?_⟩⟩
  exact (C4_empty_result_gates exGraph exSvc exAnnEmpty exQE exIso "alice" 3 0).2.2
    ["food"] rfl

/-! ## C2: the relationship verb is part of the edge's identity -/

/-- C2: merging a `RELATES_TO` edge for an existing `(user, node, verb)`
triple updates every matching edge's `lifetime` and `updatedAt` in place
and creates no second edge (the edge list keeps its length); merging with a
verb for which no `(user, node, verb)` edge exists appends exactly one new
distinct edge and leaves every existing edge (in particular the one with
the first verb) unchanged. -/
theorem C2_verb_is_edge_identity (g : GraphState) (u : String) (nid : Nat)
    (verb verb2 lifetime lifetime2 : String) (now now2 : Nat)
    (hu : u ∈ g.users) (hn : g.nodes.any (fun n => n.id = nid) = true) :
    (g.rels.any (relMatches u nid verb) = true →
      ((mergeRelatesTo g u nid verb lifetime now).1.rels.length = g.rels.length ∧
       (mergeRelatesTo g u nid verb lifetime now).1.rels =
         g.rels.map (fun r => if relMatches u nid verb r then
           { r with lifetime := lifetime, updatedAt := some now } else r))) ∧
    (g.rels.any (relMatches u nid verb2) = false →
      ((mergeRelatesTo g u nid verb2 lifetime2 now2).1.rels =
         g.rels ++ [{ id := g.nextId, username := u, nodeId := nid, value := verb2,
                      lifetime := lifetime2, createdAt := now2 }] ∧
       (mergeRelatesTo g u nid verb2 lifetime2 now2).1.rels.length = g.rels.length + 1)) := by
  constructor
  · intro hany
    have hsome : (g.rels.find? (relMatches u nid verb)).isSome := by
      rw [List.find?_isSome]
      simpa using List.any_eq_true.mp hany
    rcases Option.isSome_iff_exists.mp hsome with ⟨e, he⟩
    unfold mergeRelatesTo
    rw [if_pos ⟨hu, hn⟩, he]
    exact ⟨by simp, rfl⟩
  · intro hany
    have hnone : g.rels.find? (relMatches u nid verb2) = none := by
      rw [List.find?_eq_none]
      intro x hx hpx
      exact absurd (List.any_eq_true.mpr ⟨x, hx, hpx⟩) (by simp [hany])
    unfold mergeRelatesTo
    rw [if_pos ⟨hu, hn⟩, hnone]
    exact ⟨rfl, by simp⟩

/-- A one-edge graph for the C2 witness: alice --like--> node 0. -/
def exGraphEdge : GraphState :=
  { users := ["alice"],
    nodes := [{ id := 0, key := "dish", value := "pizza", createdAt := 0 }],
    rels := [{ id := 1, username := "alice", nodeId := 0, value := "like",
               lifetime := "permanent", createdAt := 1 }],
    cats := [], nextId := 2 }

/-- Witness for C2: re-merging `(alice, pizza-node, like)` keeps one edge
and updates it; merging `(alice, pizza-node, love)` appends a second
distinct edge. -/
theorem C2_witness :
    ((mergeRelatesTo exGraphEdge "alice" 0 "like" "long" 9).1.rels.length =
       exGraphEdge.rels.length ∧
     (mergeRelatesTo exGraphEdge "alice" 0 "like" "long" 9).1.rels =
       exGraphEdge.rels.map (fun r => if relMatches "alice" 0 "like" r then
         { r with lifetime := "long", updatedAt := some 9 } else r)) ∧
    ((mergeRelatesTo exGraphEdge "alice" 0 "love" "permanent" 9).1.rels =
       exGraphEdge.rels ++ [{ id := exGraphEdge.nextId, username := "alice", nodeId := 0,
                              value := "love", lifetime := "permanent", createdAt := 9 }] ∧
     (mergeRelatesTo exGraphEdge "alice" 0 "love" "permanent" 9).1.rels.length =
       exGraphEdge.rels.length + 1) :=
  ⟨(C2_verb_is_edge_identity exGraphEdge "alice" 0 "like" "love" "long" "permanent" 9 9
      (by decide) (by decide)).1 (by decide),
   (C2_verb_is_edge_identity exGraphEdge "alice" 0 "like" "love" "long" "permanent" 9 9
      (by decide) (by decide)).2 (by decide)⟩

/-! ## C7: the fact-node lookup matches by value OR key, not by value alone -/

/-- A graph with one fact node `(key "dish", value "pizza")` and no edges. -/
def exGraphC7 : GraphState :=
  { users := ["alice"],
    nodes := [{ id := 0, key := "dish", value := "pizza", createdAt := 0 }],
    rels := [], cats := [], nextId := 1 }

/-- A fact whose value "pasta" matches no existing node, but whose key
"dish" matches the existing pizza node's key. -/
def exFactPasta : Info :=
  { key := some "dish", value := some "pasta", relationship := some "like",
    lifetime := some "permanent" }

/-- Counterexample to C7: consolidating the fact `(dish, pasta, like)` into
a graph whose only node is `(dish, pizza)` creates *no* node with value
"pasta" — the existing node is reused because its *key* equals the fact's
key, even though its value "pizza" differs from the fact's value — and the
user's new `RELATES_TO` edge is attached to that pizza node (node id 0).
This refutes "merge by value; an existing node is reused only when its
value equals the fact's value". -/
theorem C7_counterexample :
    exGraphC7.nodes.map (fun n => (n.id, n.value)) = [(0, "pizza")] ∧
    ((save_personal_information exGraphC7 [] exSvc exFail "alice" [exFactPasta] 5).graph.nodes.map
        (fun n => n.value) = ["pizza", "dish"]) ∧
    ((save_personal_information exGraphC7 [] exSvc exFail "alice" [exFactPasta] 5).graph.rels.map
        (fun e => e.nodeId) = [0]) := by
  refine ⟨by decide, by decide, by decide⟩

/-- C7 as amended: the `Information` node used for a fact is the first
existing node whose value equals the fact's value **or** whose key equals
the fact's key (`WHERE i.value = $value OR i.key = $key`); a new node with
the fact's key/value is created only when no node matches on either; and
when the chosen node was a pure category marker (`key == "Category"`) while
the new fact supplies a real key, its key (and `updatedAt`) is overwritten. -/
theorem C7_amended_node_lookup (g : GraphState) (k v : String) (now : Nat) :
    (∀ n, g.nodes.find? (nodeMatches k v) = some n →
      ((resolveNode g k v now).2 = n.id ∧
       (resolveNode g k v now).1.nodes.length = g.nodes.length ∧
       (n.key = "Category" ∧ k ≠ "Category" →
         (resolveNode g k v now).1.nodes = g.nodes.map (fun m =>
           if m.id = n.id then { m with key := k, updatedAt := some now } else m)) ∧
       (¬(n.key = "Category" ∧ k ≠ "Category") →
         (resolveNode g k v now).1.nodes = g.nodes))) ∧
    (g.nodes.find? (nodeMatches k v) = none →
      ((resolveNode g k v now).1.nodes =
         g.nodes ++ [{ id := g.nextId, key := k, value := v, children := [],
                       createdAt := now }] ∧
       (resolveNode g k v now).2 = g.nextId)) ∧
    (g.nodes.find? (nodeMatches k v) = none ↔
      ∀ n ∈ g.nodes, ¬(n.value = v ∨ n.key = k)) := by
  refine ⟨?_, ?_, ?_⟩
  · intro n hfind
    unfold resolveNode
    rw [hfind]
    dsimp only
    by_cases hc : n.key = "Category" ∧ k ≠ "Category"
    · rw [if_pos hc]
      exact ⟨rfl, by simp, fun _ => rfl, fun h => absurd hc h⟩
    · rw [if_neg hc]
      exact ⟨rfl, rfl, fun h => absurd h hc, fun _ => rfl⟩
  · intro hfind
    unfold resolveNode
    rw [hfind]
    dsimp only
    exact ⟨rfl, rfl⟩
  · rw [List.find?_eq_none]
    constructor
    · intro h n hn
      have := h n hn
      simpa [nodeMatches] using this
    · intro h n hn
      have := h n hn
      simpa [nodeMatches] using this

/-- Witness for the amended C7: in `exGraphC7` the fact `(dish, pasta)`
resolves to the pizza node (id 0, no new node); in the empty graph a fresh
node is created. -/
theorem C7_amended_witness :
    ((resolveNode exGraphC7 "dish" "pasta" 5).2 = 0 ∧
     (resolveNode exGraphC7 "dish" "pasta" 5).1.nodes.length = exGraphC7.nodes.length) ∧
    (resolveNode exGraph "dish" "pasta" 5).1.nodes =
      exGraph.nodes ++ [{ id := exGraph.nextId, key := "dish", value := "pasta",
                          children := [], createdAt := 5 }] := by
  have h1 := (C7_amended_node_lookup exGraphC7 "dish" "pasta" 5).1
    { id := 0, key := "dish", value := "pizza", createdAt := 0 } (by decide)
  have h2 := (C7_amended_node_lookup exGraph "dish" "pasta" 5).2.1 (by decide)
  exact ⟨⟨h1.1, h1.2.1⟩, h2.1⟩

/-! ## C6: hit dedup keeps the first occurrence, not the highest score -/

/-- Modelled from the spec's words for the refinement comparison of C6
("deduplicated by text, keeping the highest score per text, sorted
descending by score, truncated to topK'"): this is the *spec's* processing
of the raw hits, to be compared with the code's `processRaw`. -/
def maxScoreHit (pool : List Hit) (t : String) : Option Hit :=
  (pool.filter (fun h => h.original_text = t)).foldl
    (fun acc h =>
      match acc with
      | none => some h
      | some b => if b.score < h.score then some h else some b)
    none

/-- Modelled from the spec's words (§4.3 step 3): threshold-filter all raw
hits, keep the highest-scoring hit per text, sort descending by score,
truncate to `top_k`. -/
def processRawSpec (raw : List (List Hit)) (θ : ℚ) (top_k : Nat) : List Hit :=
  let pool := (raw.flatten).filter (fun h => decide (θ ≤ h.score) && h.original_text ≠ "")
  let texts := dedupFirstBy id (pool.map (fun h => h.original_text)) []
  (sortDescBy (fun h => h.score) (texts.filterMap (maxScoreHit pool))).take top_k

/-- The raw ANN output refuting C6: text "b" first appears with score 1 in
the first hit group and again with score 10 in the second group. -/
def exRawC6 : List (List Hit) :=
  [[{ original_text := "a", element_type := "Node", score := 5 },
    { original_text := "b", element_type := "Node", score := 1 },
    { original_text := "c", element_type := "Node", score := 4 },
    { original_text := "d", element_type := "Node", score := 3 }],
   [{ original_text := "b", element_type := "Node", score := 10 }]]

/-- Counterexample to C6: on `exRawC6` with threshold 0 and truncation 3,
the code keeps "b" with its *first-seen* score 1 (so "b" is sorted last and
truncated away, texts {a, c, d}), while the claimed highest-score dedup
keeps "b" with score 10 (texts {b, a, c}). The resulting relevant-text sets
differ, refuting "deduplicating hits by text while keeping the highest
score per text". -/
theorem C6_counterexample :
    (processRaw exRawC6 0 3).map (fun h => h.original_text) = ["a", "c", "d"] ∧
    (processRawSpec exRawC6 0 3).map (fun h => h.original_text) = ["b", "a", "c"] ∧
    processRaw exRawC6 0 3 ≠ processRawSpec exRawC6 0 3 := by
  refine ⟨by decide, by decide, by decide⟩

theorem collectGroup_fst (θ : ℚ) :
    ∀ (grp : List Hit) (seen : List String),
      (collectGroup θ grp seen).1 =
        dedupFirstBy (fun h => h.original_text)
          (grp.filter (fun h => decide (θ ≤ h.score) && h.original_text ≠ "")) seen := by
  intro grp
  induction grp with
  | nil => intro seen; rfl
  | cons h t ih =>
    intro seen
    by_cases hp : (θ ≤ h.score ∧ h.original_text ≠ "")
    · by_cases hs : h.original_text ∈ seen
      · rw [collectGroup, if_neg (by simp [hp.1, hp.2, hs]),
            List.filter_cons_of_pos (by simp [hp.1, hp.2]),
            dedupFirstBy, if_pos hs]
        exact ih seen
      · rw [collectGroup, if_pos ⟨hp.1, hp.2, hs⟩,
            List.filter_cons_of_pos (by simp [hp.1, hp.2]),
            dedupFirstBy, if_neg hs]
        simp only [List.cons.injEq, true_and]
        exact ih (seen ++ [h.original_text])
    · have hcond : ¬(θ ≤ h.score ∧ h.original_text ≠ "" ∧ h.original_text ∉ seen) := by
        intro hc
        exact hp ⟨hc.1, hc.2.1⟩
      rw [collectGroup, if_neg hcond, List.filter_cons_of_neg (by simpa using hp)]
      exact ih seen

theorem collectGroup_snd (θ : ℚ) :
    ∀ (grp : List Hit) (seen : List String),
      (collectGroup θ grp seen).2 =
        seen ++ ((collectGroup θ grp seen).1).map (fun h => h.original_text) := by
  intro grp
  induction grp with
  | nil => intro seen; simp [collectGroup]
  | cons h t ih =>
    intro seen
    rw [collectGroup]
    split
    · simp only [List.map_cons]
      rw [ih (seen ++ [h.original_text])]
      simp
    · exact ih seen

theorem dedupFirstBy_append {α β : Type} [DecidableEq β] (key : α → β) :
    ∀ (l₁ l₂ : List α) (seen : List β),
      dedupFirstBy key (l₁ ++ l₂) seen =
        dedupFirstBy key l₁ seen ++
          dedupFirstBy key l₂ (seen ++ (dedupFirstBy key l₁ seen).map key) := by
  intro l₁
  induction l₁ with
  | nil => intro l₂ seen; simp [dedupFirstBy]
  | cons x xs ih =>
    intro l₂ seen
    by_cases hs : key x ∈ seen
    · rw [List.cons_append, dedupFirstBy, if_pos hs, dedupFirstBy, if_pos hs]
      exact ih l₂ seen
    · rw [List.cons_append, dedupFirstBy, if_neg hs, dedupFirstBy, if_neg hs]
      rw [List.cons_append, List.cons.injEq]
      refine ⟨rfl, ?_⟩
      rw [ih l₂ (seen ++ [key x])]
      simp

theorem collectHits_eq (θ : ℚ) :
    ∀ (raw : List (List Hit)) (seen : List String),
      collectHits θ raw seen =
        dedupFirstBy (fun h => h.original_text)
          ((raw.flatten).filter (fun h => decide (θ ≤ h.score) && h.original_text ≠ "")) seen := by
  intro raw
  induction raw with
  | nil => intro seen; rfl
  | cons grp rest ih =>
    intro seen
    rw [collectHits, List.flatten_cons, List.filter_append, dedupFirstBy_append]
    rw [collectGroup_fst θ grp seen, ih, collectGroup_snd θ grp seen,
        collectGroup_fst θ grp seen]

theorem mem_insertDescBy {α β : Type} [LinearOrder β] (key : α → β) (x a : α) :
    ∀ (l : List α), a ∈ insertDescBy key x l ↔ a = x ∨ a ∈ l := by
  intro l
  induction l with
  | nil => simp [insertDescBy]
  | cons y ys ih =>
    rw [insertDescBy]
    split
    · simp [or_comm, or_assoc, or_left_comm]
    · simp only [List.mem_cons, ih]
      tauto

theorem sortDescBy_perm {α β : Type} [LinearOrder β] (key : α → β) :
    ∀ (l : List α), (sortDescBy key l).Perm l := by
  intro l
  induction l with
  | nil => exact List.Perm.refl []
  | cons x xs ih =>
    rw [sortDescBy]
    have hins : ∀ (m : List α), (insertDescBy key x m).Perm (x :: m) := by
      intro m
      induction m with
      | nil => exact List.Perm.refl _
      | cons y ys ihm =>
        rw [insertDescBy]
        split
        · exact List.Perm.refl _
        · exact ((ihm.cons y).trans (List.Perm.swap x y ys))
    exact (hins (sortDescBy key xs)).trans (ih.cons x)

theorem insertDescBy_pairwise {α β : Type} [LinearOrder β] (key : α → β) (x : α)
    (l : List α) (hl : List.Pairwise (fun a b => key b ≤ key a) l) :
    List.Pairwise (fun a b => key b ≤ key a) (insertDescBy key x l) := by
  induction l with
  | nil => simp [insertDescBy]
  | cons y ys ih =>
    rw [insertDescBy]
    rcases List.pairwise_cons.mp hl with ⟨hy, hys⟩
    split
    · next hc =>
      refine List.pairwise_cons.mpr ⟨?_, hl⟩
      intro z hz
      rcases List.mem_cons.mp hz with rfl | hz'
      · exact hc
      · exact le_trans (hy z hz') hc
    · next hc =>
      refine List.pairwise_cons.mpr ⟨?_, ih hys⟩
      intro z hz
      rcases (mem_insertDescBy key x z ys).mp hz with rfl | hz'
      · exact le_of_lt (lt_of_not_le hc)
      · exact hy z hz'

theorem sortDescBy_pairwise {α β : Type} [LinearOrder β] (key : α → β) :
    ∀ (l : List α), List.Pairwise (fun a b => key b ≤ key a) (sortDescBy key l) := by
  intro l
  induction l with
  | nil => simp [sortDescBy]
  | cons x xs ih => exact insertDescBy_pairwise key x _ ih

theorem dedupFirstBy_keys {α β : Type} [DecidableEq β] (key : α → β) :
    ∀ (l : List α) (seen : List β),
      ((dedupFirstBy key l seen).map key).Nodup ∧
        ∀ b ∈ (dedupFirstBy key l seen).map key, b ∉ seen := by
  intro l
  induction l with
  | nil => intro seen; simp [dedupFirstBy]
  | cons x xs ih =>
    intro seen
    by_cases hs : key x ∈ seen
    · rw [dedupFirstBy, if_pos hs]
      exact ih seen
    · rw [dedupFirstBy, if_neg hs]
      rcases ih (seen ++ [key x]) with ⟨hnd, hout⟩
      refine ⟨List.nodup_cons.mpr ⟨?_, hnd⟩, ?_⟩
      · intro hmem
        have := hout _ hmem
        simp at this
      · intro b hb
        rcases List.mem_cons.mp hb with rfl | hb'
        · exact hs
        · intro hbs
          exact hout b hb' (by simp [hbs])

/-- C6 as amended: the relevant hits are the threshold-passing raw hits
deduplicated by text keeping the *first occurrence* in scan order (per
query-vector group, in engine order) — not the highest score per text —
then stably sorted descending by the kept score and truncated to the
requested `top_k` (the caller passes `topK * 3`). All kept hits meet the
threshold and have pairwise distinct texts. -/
theorem C6_amended_first_occurrence_dedup (raw : List (List Hit)) (θ : ℚ) (k : Nat) :
    processRaw raw θ k =
      (sortDescBy (fun h => h.score)
        (dedupFirstBy (fun h => h.original_text)
          ((raw.flatten).filter (fun h => decide (θ ≤ h.score) && h.original_text ≠ "")) [])).take k ∧
    (processRaw raw θ k).length ≤ k ∧
    (∀ h ∈ processRaw raw θ k, θ ≤ h.score) ∧
    ((processRaw raw θ k).map (fun h => h.original_text)).Nodup ∧
    List.Pairwise (fun a b => b.score ≤ a.score) (processRaw raw θ k) := by
  have heq : processRaw raw θ k =
      (sortDescBy (fun h => h.score)
        (dedupFirstBy (fun h => h.original_text)
          ((raw.flatten).filter (fun h => decide (θ ≤ h.score) && h.original_text ≠ "")) [])).take k := by
    unfold processRaw
    rw [collectHits_eq]
  refine ⟨heq, ?_, ?_, ?_, ?_⟩
  · unfold processRaw
    exact List.length_take_le k _
  · intro h hm
    unfold processRaw at hm
    have h1 := List.mem_of_mem_take hm
    have h2 := ((sortDescBy_perm (fun h : Hit => h.score) _).mem_iff).mp h1
    rw [collectHits_eq] at h2
    have h3 := mem_dedupFirstBy _ _ _ _ h2
    have h4 := (List.mem_filter.mp h3).2
    simp only [Bool.and_eq_true, decide_eq_true_eq] at h4
    exact h4.1
  · rw [heq, List.map_take]
    refine List.Nodup.sublist (List.take_sublist _ _) ?_
    refine (List.Perm.nodup_iff (List.Perm.map _ (sortDescBy_perm (fun h : Hit => h.score) _))).mpr ?_
    exact (dedupFirstBy_keys (fun h : Hit => h.original_text) _ []).1
  · unfold processRaw
    exact List.Pairwise.sublist (List.take_sublist _ _) (sortDescBy_pairwise _ _)

/-- Witness for the amended C6 at `exRawC6`: the equation and the side
properties instantiated and evaluated. -/
theorem C6_amended_witness :
    processRaw exRawC6 0 3 =
      (sortDescBy (fun h => h.score)
        (dedupFirstBy (fun h => h.original_text)
          ((exRawC6.flatten).filter
            (fun h => decide ((0 : ℚ) ≤ h.score) && h.original_text ≠ "")) [])).take 3 ∧
    (∀ h ∈ processRaw exRawC6 0 3, (0 : ℚ) ≤ h.score) :=
  ⟨(C6_amended_first_occurrence_dedup exRawC6 0 3).1,
   (C6_amended_first_occurrence_dedup exRawC6 0 3).2.2.1⟩

/-! ## C8: category expansion is not limited to directly-matched facts -/

/-- Graph for C8: alice --like--> pizza (HAS_CATEGORY dish) and
alice --own--> cat (HAS_CATEGORY animal). -/
def exGraphC8 : GraphState :=
  { users := ["alice"],
    nodes := [{ id := 0, key := "dish", value := "pizza", createdAt := 0 },
              { id := 1, key := "Category", value := "dish", createdAt := 1 },
              { id := 2, key := "animal", value := "cat", createdAt := 2 },
              { id := 3, key := "Category", value := "animal", createdAt := 3 }],
    rels := [{ id := 4, username := "alice", nodeId := 0, value := "like",
               lifetime := "permanent", createdAt := 4 },
             { id := 5, username := "alice", nodeId := 2, value := "own",
               lifetime := "permanent", createdAt := 5 }],
    cats := [{ id := 6, fromId := 0, toId := 1, createdAt := 6 },
             { id := 7, fromId := 2, toId := 3, createdAt := 7 }],
    nextId := 8 }

/-- An ANN oracle whose only hit is the text "pizza". -/
def exAnnPizza : List (List ℚ) → List (List Hit) :=
  fun _ => [[{ original_text := "pizza", element_type := "Node", score := 1 }]]

/-- Counterexample to C8: with "pizza" as the only relevant text, the fact
`alice --own--> cat` matches nothing ("own" and "cat" differ from "pizza"
and "own" does not contain it), yet its category expansion ("cat
HAS_CATEGORY animal", a record of the *unfiltered* query 2) reaches the
final output as the sentence about "animal". This refutes "category
context items are produced only by one HAS_CATEGORY hop from a
directly-matched fact". -/
theorem C8_counterexample :
    ((processRaw (exAnnPizza (validEmbeddings exSvc ["food"])) 0 (10 * 3)).map
        (fun h => h.original_text) = ["pizza"]) ∧
    (("own" : String) ≠ "pizza" ∧ ("cat" : String) ≠ "pizza" ∧
      pyContains "own" "pizza" = false) ∧
    "You has_category animal, recorded around 3, lifetime ." ∈
      find_similar_information exGraphC8 exSvc exAnnPizza exQE exIso "alice" ["food"] 10 0 := by
  refine ⟨by decide, by decide, by decide⟩

theorem mem_sorted_take {rec : QRec} {rows : List QRec} {lim : Nat}
    (h : rec ∈ (sortDescBy (fun rec => rec.created_at) rows).take lim) : rec ∈ rows :=
  ((sortDescBy_perm (fun rec : QRec => rec.created_at) rows).mem_iff).mp
    (List.mem_of_mem_take h)

theorem lookupNode_id {g : GraphState} {nid : Nat} {n : InfoNode}
    (h : lookupNode g nid = some n) : n.id = nid ∧ n ∈ g.nodes := by
  unfold lookupNode at h
  exact ⟨by simpa using List.find?_some h, List.mem_of_find?_eq_some h⟩

/-- Origin of a retrieval record: either it is keyed by one of the user's
`RELATES_TO` edges, or by a `HAS_CATEGORY` edge hanging off a node the user
`RELATES_TO`. -/
def RecOrigin (g : GraphState) (u : String) (rec : QRec) : Prop :=
  (∃ r ∈ g.rels, r.username = u ∧ rec.rel_id = r.id) ∨
  (∃ r ∈ g.rels, ∃ h ∈ g.cats, r.username = u ∧ h.fromId = r.nodeId ∧ rec.rel_id = h.id)

theorem q1rows_origin {g : GraphState} {u : String} {texts : List String} {rec : QRec}
    (h : rec ∈ q1rows g u texts) : RecOrigin g u rec := by
  unfold q1rows at h
  rcases List.mem_append.mp h with h | h
  · rcases List.mem_filterMap.mp h with ⟨r, hr, hf⟩
    by_cases hu : r.username = u
    · rw [if_pos hu] at hf
      cases hnode : lookupNode g r.nodeId with
      | none => rw [hnode] at hf; cases hf
      | some i =>
        rw [hnode] at hf
        dsimp only at hf
        by_cases ht : (texts.contains r.value || texts.contains i.value) = true
        · rw [if_pos ht] at hf
          exact Or.inl ⟨r, hr, hu, by rw [← Option.some_inj.mp hf]⟩
        · rw [if_neg ht] at hf; cases hf
    · rw [if_neg hu] at hf; cases hf
  · rcases List.mem_flatMap.mp h with ⟨r, hr, hf⟩
    by_cases hu : r.username = u
    · rw [if_pos hu] at hf
      cases hnode : lookupNode g r.nodeId with
      | none => rw [hnode] at hf; cases hf
      | some i =>
        rw [hnode] at hf
        dsimp only at hf
        by_cases ht : (texts.contains r.value || texts.contains i.value) = true
        · rw [if_pos ht] at hf
          rcases List.mem_filterMap.mp hf with ⟨hc, hhc, hg⟩
          by_cases hfrom : hc.fromId = i.id
          · rw [if_pos hfrom] at hg
            cases hchild : lookupNode g hc.toId with
            | none => rw [hchild] at hg; cases hg
            | some j =>
              rw [hchild] at hg
              dsimp only at hg
              refine Or.inr ⟨r, hr, hc, hhc, hu, ?_, ?_⟩
              · rw [hfrom, (lookupNode_id hnode).1]
              · rw [← Option.some_inj.mp hg]
          · rw [if_neg hfrom] at hg; cases hg
        · rw [if_neg ht] at hf; cases hf
    · rw [if_neg hu] at hf; cases hf

theorem q2rows_origin {g : GraphState} {u : String} {rec : QRec}
    (h : rec ∈ q2rows g u) : RecOrigin g u rec := by
  unfold q2rows at h
  rcases List.mem_flatMap.mp h with ⟨r, hr, hf⟩
  by_cases hu : r.username = u
  · rw [if_pos hu] at hf
    cases hnode : lookupNode g r.nodeId with
    | none => rw [hnode] at hf; cases hf
    | some p =>
      rw [hnode] at hf
      dsimp only at hf
      rcases List.mem_filterMap.mp hf with ⟨hc, hhc, hg⟩
      by_cases hfrom : hc.fromId = r.nodeId
      · rw [if_pos hfrom] at hg
        cases hchild : lookupNode g hc.toId with
        | none => rw [hchild] at hg; cases hg
        | some j =>
          rw [hchild] at hg
          dsimp only at hg
          exact Or.inr ⟨r, hr, hc, hhc, hu, hfrom, by rw [← Option.some_inj.mp hg]⟩
      · rw [if_neg hfrom] at hg; cases hg
  · rw [if_neg hu] at hf; cases hf

theorem q3rows_origin {g : GraphState} {u : String} {texts : List String} {rec : QRec}
    (h : rec ∈ q3rows g u texts) : RecOrigin g u rec := by
  unfold q3rows at h
  rcases List.mem_filterMap.mp h with ⟨r, hr, hf⟩
  by_cases hc : (r.username = u &&
      (texts.any (fun t => pyContains r.value t) ||
       texts.any (fun t => pyContains (pyLower r.value) (pyLower t)))) = true
  · rw [if_pos hc] at hf
    cases hnode : lookupNode g r.nodeId with
    | none => rw [hnode] at hf; cases hf
    | some i =>
      rw [hnode] at hf
      dsimp only at hf
      have hu : r.username = u := by
        have := (Bool.and_eq_true _ _).mp hc
        simpa using this.1
      exact Or.inl ⟨r, hr, hu, by rw [← Option.some_inj.mp hf]⟩
  · rw [if_neg hc] at hf; cases hf

/-- C8 as amended: every merged retrieval record is keyed either by one of
the user's `RELATES_TO` edges or by a `HAS_CATEGORY` edge hanging off a
node the user `RELATES_TO` — but category expansions are *not* restricted
to directly-matched facts: query 1's category branch is filtered by the
relevant texts while query 2 returns the `HAS_CATEGORY` hop of *every* fact
of the user, so category context items can come from facts that matched no
relevant text (witnessed by the counterexample). -/
theorem C8_amended_category_origin (g : GraphState) (qe : QueryErrs) (u : String)
    (relevant keywords : List String) (top_k : Nat) :
    ∀ rec ∈ mergedRecords g qe u relevant keywords top_k, RecOrigin g u rec := by
  intro rec hrec
  unfold mergedRecords at hrec
  have hmem := mem_dedupFirstBy _ _ _ _ hrec
  rcases List.mem_append.mp hmem with hm | hm
  · rcases List.mem_append.mp hm with hm1 | hm2
    · by_cases hq : (qe.q1Err || relevant.isEmpty) = true
      · rw [if_pos hq] at hm1; cases hm1
      · rw [if_neg hq] at hm1
        exact q1rows_origin (mem_sorted_take hm1)
    · by_cases hq : qe.q2Err = true
      · rw [if_pos hq] at hm2; cases hm2
      · rw [if_neg hq] at hm2
        exact q2rows_origin (mem_sorted_take hm2)
  · by_cases hq : qe.q3Err = true
    · rw [if_pos hq] at hm; cases hm
    · rw [if_neg hq] at hm
      exact q3rows_origin (mem_sorted_take hm)

/-- Witness for the amended C8: the "animal" category record of the
counterexample graph indeed originates from a `HAS_CATEGORY` hop off a node
alice `RELATES_TO` (the unmatched fact "cat"). -/
theorem C8_amended_witness :
    ∃ rec ∈ mergedRecords exGraphC8 exQE "alice" ["pizza"] ["food"] 10,
      rec.rel_id = 7 ∧ RecOrigin exGraphC8 "alice" rec := by
  have hmem : ({ rel_id := 7, relationship := "HAS_CATEGORY", node_key := "Category",
                 node_value := "animal", created_at := 3, lifetime := "" } : QRec) ∈
      mergedRecords exGraphC8 exQE "alice" ["pizza"] ["food"] 10 := by decide
  exact ⟨_, hmem, rfl,
    C8_amended_category_origin exGraphC8 exQE "alice" ["pizza"] ["food"] 10 _ hmem⟩

/-! ## C9: sentence rendering, truncation at `top_k`, category adjacency -/

theorem renderLoop_eq (iso : Nat → String) (top_k : Nat) :
    ∀ (recs : List QRec) (out : List String) (seen : List (String × String × String)),
      out.length ≤ top_k →
      renderLoop iso top_k recs out seen =
        out ++ (renderAll iso recs seen).take (top_k - out.length) := by
  intro recs
  induction recs with
  | nil =>
    intro out seen hle
    simp [renderLoop, renderAll]
  | cons rec rest ih =>
    intro out seen hle
    rw [renderLoop, renderAll]
    by_cases h1 : out.length ≥ top_k
    · rw [if_pos h1]
      have h0 : top_k - out.length = 0 := by omega
      simp [h0]
    · rw [if_neg h1]
      by_cases hp : isParentRec rec = true
      · rw [if_pos hp, if_pos hp]
        by_cases h2 : (out ++ [parentSent1 iso rec]).length ≥ top_k
        · rw [if_pos h2]
          simp only [List.length_append, List.length_singleton] at h2
          have htk : top_k - out.length = 1 := by omega
          rw [htk]
          simp
        · rw [if_neg h2]
          simp only [List.length_append, List.length_singleton] at h2
          by_cases h3 : (out ++ [parentSent1 iso rec] ++ [catSent rec]).length ≥ top_k
          · rw [if_pos h3]
            simp only [List.length_append, List.length_singleton] at h3
            have htk : top_k - out.length = 2 := by omega
            rw [htk]
            simp
          · rw [if_neg h3]
            simp only [List.length_append, List.length_singleton] at h3
            rw [ih]
            · have htk : top_k - out.length = (top_k - (out.length + 2)) + 2 := by omega
              rw [htk]
              simp only [List.take_succ_cons, List.length_append, List.length_singleton]
              have h2' : out.length + 1 + 1 = out.length + 2 := by omega
              rw [h2']
              simp
            · simp only [List.length_append, List.length_singleton]
              omega
      · rw [if_neg hp, if_neg hp]
        by_cases hskip : (pyLower rec.relationship = "" ∨ pyLower rec.node_value = "" ∨
            recTuple rec ∈ seen)
        · rw [if_pos hskip, if_pos hskip]
          exact ih out seen hle
        · rw [if_neg hskip, if_neg hskip]
          rw [ih]
          · have htk : top_k - out.length = (top_k - (out.length + 1)) + 1 := by omega
            rw [htk]
            simp
          · simp only [List.length_append, List.length_singleton]
            omega

theorem mem_renderAll (iso : Nat → String) :
    ∀ (recs : List QRec) (seen : List (String × String × String)) (s : String),
      s ∈ renderAll iso recs seen →
      ∃ rec ∈ recs, s = parentSent1 iso rec ∨ s = catSent rec ∨ s = defaultSent iso rec := by
  intro recs
  induction recs with
  | nil => intro seen s hs; cases hs
  | cons rec rest ih =>
    intro seen s hs
    rw [renderAll] at hs
    split at hs
    · rcases List.mem_cons.mp hs with rfl | hs'
      · exact ⟨rec, List.mem_cons_self _ _, Or.inl rfl⟩
      · rcases List.mem_cons.mp hs' with rfl | hs''
        · exact ⟨rec, List.mem_cons_self _ _, Or.inr (Or.inl rfl)⟩
        · rcases ih seen s hs'' with ⟨r, hr, ho⟩
          exact ⟨r, List.mem_cons_of_mem _ hr, ho⟩
    · split at hs
      · rcases ih seen s hs with ⟨r, hr, ho⟩
        exact ⟨r, List.mem_cons_of_mem _ hr, ho⟩
      · rcases List.mem_cons.mp hs with rfl | hs'
        · exact ⟨rec, List.mem_cons_self _ _, Or.inr (Or.inr rfl)⟩
        · rcases ih _ s hs' with ⟨r, hr, ho⟩
          exact ⟨r, List.mem_cons_of_mem _ hr, ho⟩

/-- C9: the rendering loop returns at most `top_k` sentences and equals the
`top_k`-prefix of the unbounded per-record sentence stream `renderAll`, in
which a category-expansion (parent) record contributes its pair of
sentences adjacently — the parent sentence
`"You {parent_rel} {parent_val}, recorded around {iso}, lifetime {lt}."`
immediately followed by `"{Parent_val} is a {node_key} of {node_value}."` —
and every other surviving record contributes its single capitalized
`"You {relationship} {node_value}, recorded around {iso}, lifetime {lt}."`
sentence; accumulation stops exactly at `top_k` (a prefix cut can fall
between the two sentences of a pair). Every output sentence is one of these
three forms for some input record. -/
theorem C9_sentence_rendering (iso : Nat → String) (recs : List QRec) (top_k : Nat) :
    (render iso top_k recs).length ≤ top_k ∧
    render iso top_k recs = (renderAll iso recs []).take top_k ∧
    (∀ s ∈ render iso top_k recs, ∃ rec ∈ recs,
      s = parentSent1 iso rec ∨ s = catSent rec ∨ s = defaultSent iso rec) := by
  have heq : render iso top_k recs = (renderAll iso recs []).take top_k := by
    unfold render
    rw [renderLoop_eq iso top_k recs [] [] (by simp)]
    simp
  refine ⟨?_, heq, ?_⟩
  · rw [heq]
    exact List.length_take_le _ _
  · intro s hs
    rw [heq] at hs
    exact mem_renderAll iso recs [] s (List.mem_of_mem_take hs)

/-- Witness for C9 on the C8 example graph's records: three sentences are
requested and returned, the pair of a parent record is adjacent, and each
output sentence is traced to a record. -/
theorem C9_witness :
    (render exIso 3 (mergedRecords exGraphC8 exQE "alice" ["pizza"] ["food"] 3)).length ≤ 3 ∧
    render exIso 3 (mergedRecords exGraphC8 exQE "alice" ["pizza"] ["food"] 3) =
      (renderAll exIso (mergedRecords exGraphC8 exQE "alice" ["pizza"] ["food"] 3) []).take 3 ∧
    (∃ rec ∈ mergedRecords exGraphC8 exQE "alice" ["pizza"] ["food"] 3,
      "You like pizza, recorded around 0, lifetime permanent." = parentSent1 exIso rec ∨
      "You like pizza, recorded around 0, lifetime permanent." = catSent rec ∨
      "You like pizza, recorded around 0, lifetime permanent." = defaultSent exIso rec) := by
  refine ⟨(C9_sentence_rendering exIso _ 3).1, (C9_sentence_rendering exIso _ 3).2.1, ?_⟩
  refine (C9_sentence_rendering exIso (mergedRecords exGraphC8 exQE "alice" ["pizza"] ["food"] 3)
    3).2.2 "You like pizza, recorded around 0, lifetime permanent." ?_
  decide

/-! ## C1: batch dedup and re-check, defeated by the strip/lower mismatch -/

/-- A Milvus state already holding a record whose stored text carries a
leading space (reachable: `insert_vectors` lower-cases but does not strip). -/
def exMilvusC1 : MilvusState :=
  [{ original_text := " pizza", embedding := [1], element_type := "Node" }]

/-- A fact whose value carries a leading space. -/
def exFactSpace : Info :=
  { key := some "dish", value := some " pizza", relationship := some "like",
    lifetime := some "permanent" }

/-- Counterexample to C1: the store already holds a VectorRecord with text
`" pizza"`, yet consolidating a fact with value `" pizza"` inserts that
very text again — both existence checks normalize with `strip().lower()`
and look up `"pizza"`, which misses the stored `" pizza"` (storage only
lower-cases). So a single Consolidate call *can* insert a text that
already had a VectorRecord, refuting the claim's invariant. -/
theorem C1_counterexample :
    (exMilvusC1.map (fun r => r.original_text) = [" pizza"]) ∧
    " pizza" ∈ ((save_personal_information exGraph exMilvusC1 exSvc exFail "alice"
        [exFactSpace] 0).insertedRecords.map (fun r => r.original_text)) := by
  refine ⟨by decide, by decide⟩

/-- A text whose lower-cased form is stable under stripping and repeated
lower-casing and is non-empty: texts without leading/trailing whitespace
satisfy this, and it is exactly what makes the `strip().lower()` lookup key
agree with the `lower()` storage key. -/
def NormReady (t : String) : Prop :=
  pyStrip (pyLower t) = pyLower t ∧ pyLower (pyLower t) = pyLower t ∧ pyLower t ≠ ""

theorem insert_vectors_texts (M : MilvusState) (data : List InsertItem)
    (hstab : ∀ it ∈ data, pyLower it.original_text = it.original_text) :
    ((insert_vectors M data).2).map (fun r => r.original_text) =
      data.map (fun it => it.original_text) := by
  unfold insert_vectors
  simp only [List.map_map]
  refine List.map_congr_left (fun it hit => ?_)
  simpa using hstab it hit

instance NormReady.decidable (t : String) : Decidable (NormReady t) := by
  unfold NormReady
  infer_instance

theorem pass2_records_precise {M : MilvusState} {fo : FailOracle} {inserts : List InsertItem}
    (hchk : ∀ t, fo.pass2CheckErr t = false)
    (hP : ∀ it ∈ inserts, ∃ t, NormReady t ∧ it.original_text = pyLower t) :
    (((pass2 M fo inserts).2.map (fun r => r.original_text)).Nodup ∧
     ∀ rec ∈ (pass2 M fo inserts).2, ∀ r0 ∈ M, r0.original_text ≠ rec.original_text) := by
  unfold pass2
  split
  · simp
  · simp only
    split
    · simp
    · split
      · simp
      · next hne hfne hins =>
        have hded : ∀ it ∈ dedupLastWins (fun it => pyLower it.original_text) inserts,
            ∃ t, NormReady t ∧ it.original_text = pyLower t :=
          fun it hit => hP it (mem_dedupLastWins _ inserts it hit)
        have hstable : ∀ it ∈ (dedupLastWins (fun it => pyLower it.original_text) inserts).map
            (fun it => { it with original_text := pyLower it.original_text }),
            pyLower it.original_text = it.original_text ∧
            pyStrip it.original_text = it.original_text ∧
            it.original_text ≠ "" := by
          intro it hit
          rcases List.mem_map.mp hit with ⟨it0, hit0, rfl⟩
          rcases hded it0 hit0 with ⟨t, ⟨hs, hl, hne2⟩, ho⟩
          refine ⟨?_, ?_, ?_⟩
          · simp only [ho, hl]
          · simp only [ho, hl, hs]
          · simp only [ho, hl]
            exact hne2
        constructor
        · rw [insert_vectors_texts M _
            (fun it hit => (hstable it (List.mem_of_mem_filter hit)).1)]
          refine List.Nodup.sublist (List.Sublist.map _ (List.filter_sublist _)) ?_
          have hmk : ((dedupLastWins (fun it => pyLower it.original_text) inserts).map
              (fun it => { it with original_text := pyLower it.original_text })).map
              (fun it : InsertItem => it.original_text) =
              (dedupLastWins (fun it => pyLower it.original_text) inserts).map
              (fun it => pyLower it.original_text) := by
            rw [List.map_map]
            rfl
          rw [hmk]
          exact dedupLastWins_keys_nodup _ inserts
        · intro rec hrec r0 hr0
          unfold insert_vectors at hrec
          simp only at hrec
          rcases List.mem_map.mp hrec with ⟨it, hit, rfl⟩
          have hstab := hstable it (List.mem_of_mem_filter hit)
          have hpred := (List.mem_filter.mp hit).2
          rw [hchk it.original_text] at hpred
          simp only [Bool.false_or, Option.isNone_iff_eq_none] at hpred
          unfold get_vector_id_by_text at hpred
          rw [hstab.2.1, hstab.1] at hpred
          rw [if_neg hstab.2.2] at hpred
          have hfind : M.find? (fun r => r.original_text = it.original_text) = none := by
            cases hf : M.find? (fun r => r.original_text = it.original_text) with
            | none => rfl
            | some r =>
              rw [hf] at hpred
              simp at hpred
          have hne3 := List.find?_eq_none.mp hfind r0 hr0
          intro heq
          simp only [decide_eq_true_eq] at hne3
          exact hne3 (by simpa [hstab.1] using heq)

/-- C1 as amended: provided every (valid) fact text is normalization-stable
— its lower-cased form is non-empty and unchanged by stripping (no
leading/trailing whitespace) — a single consolidation call inserts pairwise
distinct stored texts (the stored text *is* the lower-cased/normalized
text) and never inserts a text that already had a VectorRecord, thanks to
the batch dedup and the per-candidate re-check before the batched insert.
Without that proviso the claim fails (see the counterexample): the
existence checks normalize with `strip().lower()` while storage only
lower-cases. The re-check must itself not raise (a raised check keeps the
candidate by design). -/
theorem C1_amended_no_duplicate_inserts (g : GraphState) (M : MilvusState)
    (svc : String → Option (List ℚ)) (fo : FailOracle) (username : String)
    (info_list : List Info) (now : Nat)
    (hchk : ∀ t, fo.pass2CheckErr t = false)
    (hfacts : ∀ info ∈ info_list, info.isComplete = true → ∀ t ∈ info.texts, NormReady t) :
    (((save_personal_information g M svc fo username info_list now).insertedRecords.map
        (fun r => r.original_text)).Nodup ∧
     ∀ rec ∈ (save_personal_information g M svc fo username info_list now).insertedRecords,
       ∀ r0 ∈ M, r0.original_text ≠ rec.original_text) := by
  unfold save_personal_information
  split
  · simp
  · split
    · simp only
      refine pass2_records_precise hchk ?_
      intro it hit
      rcases foldl_processInfo_inserts _ _ it hit with h | h
      · cases h
      · rcases h with ⟨t, ht, hz, he, ho⟩
        have ht1 := List.mem_filter.mp ht
        have ht0 := List.mem_filter.mp ht1.1
        have htx := mem_dedupFirstBy _ _ _ _ ht0.1
        rcases List.mem_flatMap.mp htx with ⟨info, hinfo, htin⟩
        have hinfo2 := List.mem_filter.mp hinfo
        exact ⟨t, hfacts info hinfo2.1 hinfo2.2 t htin, ho⟩
    · simp

/-- Witness for the amended C1: consolidating alice's pizza fact against
the store that already holds `" pizza"` inserts pairwise distinct texts and
nothing already stored (all of "pizza", "like", "dish" are
normalization-stable and differ from the stored `" pizza"`). -/
theorem C1_amended_witness :
    (((save_personal_information exGraph exMilvusC1 exSvc exFail "alice" [exFact]
        0).insertedRecords.map (fun r => r.original_text)).Nodup ∧
     ∀ rec ∈ (save_personal_information exGraph exMilvusC1 exSvc exFail "alice" [exFact]
        0).insertedRecords,
       ∀ r0 ∈ exMilvusC1, r0.original_text ≠ rec.original_text) :=
  C1_amended_no_duplicate_inserts exGraph exMilvusC1 exSvc exFail "alice" [exFact] 0
    (fun _ => rfl) (by decide)
